import Mathlib

/-!
Verification of the libmbtiles tile/coordinate/metadata/pattern logic.

The development shallowly embeds the C++ sources of the repository:
pure functions become Lean functions over `Int`/`Nat`/`List Char`/`List UInt8`,
the SQLite-backed metadata table becomes an association list threaded through
the operations, and C++ exceptions become `Except` errors.  Machine `int` is
modelled as a mathematical integer together with the explicit bound
`intMax = 2^31 - 1` exactly where the source checks it; `long long`
intermediates never overflow on the domains covered by the theorems
(`zoom ≤ 62`), so they are plain integers.
-/

namespace LibMbtiles

/-- Numeric value of `std::numeric_limits<int>::max()` on the 32-bit `int`
targets of this code base. -/
def intMax : Int := 2147483647

/-- Boolean test that an `Except` value is a success. -/
def isOkB {ε α : Type} : Except ε α → Bool
  | Except.ok _ => true
  | Except.error _ => false

/-- Boolean test that an `Except` value is an error. -/
def isErrB {ε α : Type} : Except ε α → Bool
  | Except.ok _ => false
  | Except.error _ => true

/-- Embedding of `tms_to_xyz_y` (src/src/lib/mbtiles.cpp, lines 461-467):
computes `(1LL << z) - 1 - tms_y` in `long long` and throws when the value is
negative or exceeds `std::numeric_limits<int>::max()`.  The shift is modelled
as the exact power `2 ^ z`, which agrees with the source for `0 ≤ z ≤ 62`
(beyond that the C++ shift is undefined behaviour). -/
def tms_to_xyz_y (tms_y : Int) (z : Nat) : Except String Int :=
  let value : Int := (2 ^ z - 1) - tms_y
  if value < 0 ∨ value > intMax then
    Except.error ("Tile row is outside representable range for zoom level " ++ toString z)
  else
    Except.ok value

/-- Embedding of `xyz_to_tms_y` (src/src/lib/mbtiles.cpp, lines 469-476):
identical arithmetic to `tms_to_xyz_y` with the same range check. -/
def xyz_to_tms_y (xyz_y : Int) (z : Nat) : Except String Int :=
  let max_value : Int := 2 ^ z - 1
  let result : Int := max_value - xyz_y
  if result < 0 ∨ result > intMax then
    Except.error ("Tile row is outside representable range for zoom level " ++ toString z)
  else
    Except.ok result

/-- Composition of the two row transforms as used by the round-trip claim:
first `xyz_to_tms_y`, then `tms_to_xyz_y`, propagating errors. -/
def rowRoundTrip (r : Int) (z : Nat) : Except String Int :=
  (xyz_to_tms_y r z).bind (fun t => tms_to_xyz_y t z)

/-- Metadata table of an MBTiles archive: the rows of
`metadata(name TEXT PRIMARY KEY, value TEXT)` as an association list in
storage order. -/
def MetaTable : Type := List (String × String)

/-- Membership test for a metadata key, as observed by the `PRIMARY KEY`
constraint of the `metadata` table. -/
def keyExists (table : List (String × String)) (k : String) : Bool :=
  table.any (fun e => e.1 == k)

/-- Effect of one `INSERT ... ON CONFLICT(name) DO UPDATE SET value=excluded.value`
statement on the metadata table. -/
def upsertEntry (table : List (String × String)) (k v : String) :
    List (String × String) :=
  if keyExists table k then
    table.map (fun e => if e.1 == k then (e.1, v) else e)
  else
    table ++ [(k, v)]

/-- Loop body of `MBTiles::setMetadata` (src/src/lib/mbtiles.cpp, lines
1216-1228): each entry is written with the prepared statement; with
`overwrite_existing = false` the plain `INSERT` hits the primary-key
constraint as soon as the key already exists in the table, which aborts the
batch. -/
def setMetadataLoop (overwrite : Bool) :
    List (String × String) → List (String × String) →
      Except String (List (String × String))
  | table, [] => Except.ok table
  | table, (k, v) :: rest =>
    if overwrite then
      setMetadataLoop overwrite (upsertEntry table k v) rest
    else if keyExists table k then
      Except.error ("Failed to write metadata entry " ++ k)
    else
      setMetadataLoop overwrite (table ++ [(k, v)]) rest

/-- Embedding of `MBTiles::setMetadata` (src/src/lib/mbtiles.cpp, lines
1189-1233).  An empty batch returns at once.  Otherwise the entries are
written inside one `BEGIN IMMEDIATE TRANSACTION`; a failing insert issues
`ROLLBACK` and throws, so an `Except.error` result means the stored table is
the unchanged input table (nothing of the batch is committed), while
`Except.ok t` means the transaction committed with new table `t`. -/
def setMetadata (table entries : List (String × String)) (overwrite : Bool) :
    Except String (List (String × String)) :=
  if entries.isEmpty then Except.ok table
  else setMetadataLoop overwrite table entries

/-- Boolean membership of a coordinate pair in a list, mirroring the
`availableFiles.find(keyStr) != end()` / `processed.count(key)` lookups of
`decrease_zoom.cpp` (the map key `"x/y"` and the packed `uint64` key both
stand for the pair). -/
def memPair (l : List (Nat × Nat)) (p : Nat × Nat) : Bool :=
  l.any (fun q => q.1 == p.1 && q.2 == p.2)

/-- Child coordinates of the 2x2 block below parent `(X, Y)`, in the order
built at src/src/sources/decrease_zoom.cpp, lines 124-126. -/
def childrenOf (X Y : Nat) : List (Nat × Nat) :=
  [(2 * X, 2 * Y), (2 * X + 1, 2 * Y), (2 * X, 2 * Y + 1), (2 * X + 1, 2 * Y + 1)]

/-- One iteration of the main loop of `decrease_zoom.cpp` (lines 111-192) for
the file at coordinate `kv`.  The state is `(processed, outputs)`: parents
already handled and parent tiles written.  `avail` is the preloaded
`availableFiles` key set and `load c = true` means `stbi_load` succeeds on
child `c`.  A block whose four children are not all present and loadable is
skipped (`continue`) without producing output and without raising an error;
only fully loaded blocks write a parent tile and mark the parent processed. -/
def decreaseZoomStep (avail : List (Nat × Nat)) (load : Nat × Nat → Bool)
    (state : List (Nat × Nat) × List (Nat × Nat)) (kv : Nat × Nat) :
    List (Nat × Nat) × List (Nat × Nat) :=
  let P : Nat × Nat := (kv.1 / 2, kv.2 / 2)
  if memPair state.1 P then state
  else
    let allExist := (childrenOf P.1 P.2).all (fun c => memPair avail c && load c)
    if allExist then (P :: state.1, P :: state.2) else state

/-- Parent tiles written by one run of `decrease_zoom.cpp`'s main loop over
the available child files (iteration order of the unordered map given by the
list order of `avail`). -/
def decrease_zoom_run (avail : List (Nat × Nat)) (load : Nat × Nat → Bool) :
    List (Nat × Nat) :=
  (avail.foldl (decreaseZoomStep avail load) ([], [])).2

/-- Modelled from the interface contract of the external SQLite library:
`sqlite3_open` in its default `READWRITE | CREATE` mode opens an existing
database file or creates a fresh empty one when the path does not name a
file, returning non-`SQLITE_OK` only on an underlying I/O failure (captured
by the oracle `ioErr`).  `fs` is the set of paths that currently name a
database file; the result is the updated set, `none` standing for a non-OK
return code. -/
def sqlite3_open_sim (fs : List String) (ioErr : String → Bool)
    (path : String) : Option (List String) :=
  if ioErr path then none
  else if path ∈ fs then some fs else some (fs ++ [path])

/-- Embedding of `MBTiles::open` (src/src/lib/mbtiles.cpp, lines 112-129):
an empty path throws `std::invalid_argument` before SQLite is consulted; a
non-OK `sqlite3_open` return throws `mbtiles_error`; otherwise the handle is
established (name bookkeeping omitted) and the possibly extended file set is
returned. -/
def MBTiles_open (fs : List String) (ioErr : String → Bool) (path : String) :
    Except String (List String) :=
  if path = "" then Except.error "MBTiles path must not be empty"
  else
    match sqlite3_open_sim fs ioErr path with
    | some fs2 => Except.ok fs2
    | none => Except.error ("Unable to open MBTiles file: " ++ path)

/-- Character class of C `std::isspace` in the default locale. -/
def std_isspace (c : Char) : Bool :=
  c == ' ' || c == '\t' || c == '\n' || c == '\x0B' || c == '\x0C' || c == '\r'

/-- Character mapping of C `std::tolower` in the default locale (ASCII). -/
def std_tolower (c : Char) : Char :=
  if 'A' ≤ c && c ≤ 'Z' then Char.ofNat (c.toNat + 32) else c

/-- Embedding of `normalize_extension_token` (src/src/lib/mbtiles.cpp, lines
189-206): trim surrounding whitespace, drop one leading dot, lower-case, and
map `jpeg` to `jpg`. -/
def normalize_extension_token (value : String) : String :=
  let trimmed :=
    ((value.toList.dropWhile std_isspace).reverse.dropWhile std_isspace).reverse
  let undotted :=
    match trimmed with
    | '.' :: rest => rest
    | l => l
  let lowered := (undotted.map std_tolower).asString
  if lowered == "jpeg" then "jpg" else lowered

/-- Embedding of `detect_extension` (src/src/lib/mbtiles.cpp, lines 153-173):
sniff the blob's magic bytes for PNG, JPEG and WebP signatures, defaulting to
the binary placeholder `.bin` (this also covers the null/empty-blob early
return). -/
def detect_extension (bytes : List UInt8) : String :=
  if bytes.length ≥ 8 then
    if bytes.take 4 = [0x89, 0x50, 0x4E, 0x47] then ".png"
    else if bytes.take 3 = [0xFF, 0xD8, 0xFF] then ".jpg"
    else if bytes.length ≥ 12 ∧ bytes.take 4 = [0x52, 0x49, 0x46, 0x46] ∧
        (bytes.drop 8).take 4 = [0x57, 0x45, 0x42, 0x50] then ".webp"
    else ".bin"
  else ".bin"

/-- Embedding of `extension_without_dot` (src/src/lib/mbtiles.cpp, lines
175-180). -/
def extension_without_dot (ext : String) : String :=
  match ext.toList with
  | '.' :: rest => rest.asString
  | _ => ext

/-- Embedding of `read_metadata_format_extension` (src/src/lib/mbtiles.cpp,
lines 208-232): `formatRow` is the result of
`SELECT value FROM metadata WHERE name='format' LIMIT 1` (with `none` also
covering a NULL value or a failed prepare), normalized; absence yields the
empty token. -/
def read_metadata_format_extension (formatRow : Option String) : String :=
  match formatRow with
  | some v => normalize_extension_token v
  | none => ""

/-- Extension selection of `TileIterator::next` (src/src/lib/mbtiles.cpp,
lines 1359-1366): the normalized archive `format` entry is used whenever it
is non-empty, otherwise the extension is sniffed from the blob and stripped
of its dot. -/
def tileExtension (formatRow : Option String) (blob : List UInt8) : String :=
  let metaExt := read_metadata_format_extension formatRow
  if metaExt ≠ "" then metaExt
  else extension_without_dot (detect_extension blob)

/-- Tile coordinate record used by `tile2latlon` and the bounds accessors
(src/includes/mbtiles.h, lines 92-105; blob and extension fields are
irrelevant to the bounds and omitted).  In the C++ struct every field carries
the default member initializer `0`. -/
structure TileInfo where
  zoom : Int
  x : Int
  y : Int

/-- Latitude formula of `tile2latlon(const TileInfo&)` (src/src/lib/
mbtiles.cpp, lines 1272-1278), over the reals:
`atan(sinh(pi * (1 - 2 y / 2^z))) * 180 / pi`. -/
noncomputable def tile_lat (z y : Int) : ℝ :=
  Real.arctan (Real.sinh (Real.pi * (1 - 2 * (y : ℝ) / (2 : ℝ) ^ z))) * 180 / Real.pi

/-- Longitude formula of `tile2latlon(const TileInfo&)`:
`x / 2^z * 360 - 180`. -/
noncomputable def tile_lon (z x : Int) : ℝ :=
  (x : ℝ) / (2 : ℝ) ^ z * 360 - 180

/-- Embedding of the struct overload `tile2latlon(const TileInfo&)`:
latitude from the record's y field, longitude from its x field. -/
noncomputable def tile2latlon_struct (t : TileInfo) : ℝ × ℝ :=
  (tile_lat t.zoom t.y, tile_lon t.zoom t.x)

/-- Embedding of the int overload `tile2latlon(int z, int x, int y)`
(src/src/lib/mbtiles.cpp, lines 1279-1285).  The body runs `tile.x = x;`
followed by `tile.x = y;`, so the record it builds carries `y` in its x
field, the parameter `x` is dead, and the y field keeps its
default-initialized value `0`. -/
noncomputable def tile2latlon (z _x y : Int) : ℝ × ℝ :=
  tile2latlon_struct { zoom := z, x := y, y := 0 }

/-- Embedding of `TileInfo::latMin` (src/src/lib/mbtiles.cpp, lines
1287-1290): bottom edge, row `y + 1`. -/
noncomputable def TileInfo.latMin (t : TileInfo) : ℝ :=
  (tile2latlon t.zoom t.x (t.y + 1)).1

/-- Embedding of `TileInfo::latMax`: top edge, row `y`. -/
noncomputable def TileInfo.latMax (t : TileInfo) : ℝ :=
  (tile2latlon t.zoom t.x t.y).1

/-- Embedding of `TileInfo::lonMin`: left edge, column `x`. -/
noncomputable def TileInfo.lonMin (t : TileInfo) : ℝ :=
  (tile2latlon t.zoom t.x t.y).2

/-- Embedding of `TileInfo::lonMax`: right edge, column `x + 1`. -/
noncomputable def TileInfo.lonMax (t : TileInfo) : ℝ :=
  (tile2latlon t.zoom (t.x + 1) t.y).2

/-- Opening brace character, written via its code point to keep brace
characters out of literals. -/
def lbrace : Char := Char.ofNat 123

/-- Closing brace character. -/
def rbrace : Char := Char.ofNat 125

/-- Decimal rendering of a C++ `int` by `std::to_string`. -/
def intDecimal (v : Int) : List Char :=
  if v < 0 then '-' :: Nat.toDigits 10 v.natAbs else Nat.toDigits 10 v.natAbs

/-- Embedding of `leading_digits` (src/src/lib/mbtiles.cpp, lines 251-257):
render `llabs(value)`, left-pad with zeros when shorter than `count`, then
keep the first `count` characters. -/
def leading_digits (value : Int) (count : Nat) : List Char :=
  let digits := Nat.toDigits 10 value.natAbs
  let padded :=
    if digits.length < count then
      List.replicate (count - digits.length) '0' ++ digits
    else digits
  padded.take count

/-- Specification-side rendering of a repeated zero-padded placeholder of
width `count`, following the claim words: render the value's absolute value;
with more than `count` digits keep the leading `count` digits, otherwise
left-pad with zeros to exactly `count` characters. -/
def padSpecRender (value : Int) (count : Nat) : List Char :=
  let ds := Nat.toDigits 10 value.natAbs
  if count < ds.length then ds.take count
  else List.replicate (count - ds.length) '0' ++ ds

/-- Embedding of `token_is` (src/src/lib/mbtiles.cpp, lines 264-266). -/
def token_is (token : List Char) (expected : Char) : Bool :=
  token == [expected]

/-- Embedding of `token_is_repeat_of` (src/src/lib/mbtiles.cpp, lines
268-278). -/
def token_is_repeat_of (token : List Char) (expected : Char) : Bool :=
  !token.isEmpty && token.all (fun ch => ch == expected)

/-- Placeholder value selector: which of the five tile quantities a
placeholder refers to. -/
inductive Sel : Type
  | Z
  | X
  | Y
  | A
  | O
deriving DecidableEq

/-- Action of one recognized placeholder token. -/
inductive TokAct : Type
  | single (s : Sel)
  | padded (s : Sel) (width : Nat)
  | extTok
deriving DecidableEq

/-- Token recognition of `format_pattern` (src/src/lib/mbtiles.cpp, lines
305-330), in the source's test order: single lower-case selectors, then the
repeated upper-case zero-padded forms, then `ext`; anything else is
unknown. -/
def classifyToken (token : List Char) : Option TokAct :=
  if token_is token 'z' then some (TokAct.single Sel.Z)
  else if token_is token 'x' then some (TokAct.single Sel.X)
  else if token_is token 'y' then some (TokAct.single Sel.Y)
  else if token_is token 'a' then some (TokAct.single Sel.A)
  else if token_is token 'o' then some (TokAct.single Sel.O)
  else if token_is_repeat_of token 'Z' then some (TokAct.padded Sel.Z token.length)
  else if token_is_repeat_of token 'X' then some (TokAct.padded Sel.X token.length)
  else if token_is_repeat_of token 'Y' then some (TokAct.padded Sel.Y token.length)
  else if token_is_repeat_of token 'A' then some (TokAct.padded Sel.A token.length)
  else if token_is_repeat_of token 'O' then some (TokAct.padded Sel.O token.length)
  else if token == ['e', 'x', 't'] then some TokAct.extTok
  else none

/-- Resolved per-tile context of one `format_pattern` call.  The source
computes `lat`/`lon` as doubles at the top of the function
(src/src/lib/mbtiles.cpp, lines 281-282); floating point is kept abstract, so
the context carries the two derived quantities the placeholders consume:
`latStr`/`lonStr` for `format_decimal(lat)`/`format_decimal(lon)` (the
6-decimal renderings used by the single `a`/`o` placeholders) and
`latInt`/`lonInt` for `(long long) floor(fabs(...))` (the integer parts used
by `leading_digits_from_double` for repeated `A`/`O` placeholders). -/
structure FmtCtx where
  z : Int
  x : Int
  y : Int
  latStr : List Char
  lonStr : List Char
  latInt : Int
  lonInt : Int
  ext : List Char

/-- Rendering of a single (lower-case) placeholder. -/
def selSingle (ctx : FmtCtx) : Sel → List Char
  | Sel.Z => intDecimal ctx.z
  | Sel.X => intDecimal ctx.x
  | Sel.Y => intDecimal ctx.y
  | Sel.A => ctx.latStr
  | Sel.O => ctx.lonStr

/-- Integer fed to `leading_digits` by a repeated (upper-case) placeholder. -/
def selPadVal (ctx : FmtCtx) : Sel → Int
  | Sel.Z => ctx.z
  | Sel.X => ctx.x
  | Sel.Y => ctx.y
  | Sel.A => ctx.latInt
  | Sel.O => ctx.lonInt

/-- Replacement text of one recognized placeholder. -/
def renderAct (ctx : FmtCtx) : TokAct → List Char
  | TokAct.single s => selSingle ctx s
  | TokAct.padded s w => leading_digits (selPadVal ctx s) w
  | TokAct.extTok => ctx.ext

/-- Search for the closing brace performed by `pattern.find(rbrace, i + 1)`:
splits a list at its first closing brace, `none` when there is none. -/
def splitAtClose : List Char → Option (List Char × List Char)
  | [] => none
  | c :: cs =>
    if c == rbrace then some ([], cs)
    else
      match splitAtClose cs with
      | some (tok, rest) => some (c :: tok, rest)
      | none => none

/-- Message of the unclosed-placeholder error (the source embeds the whole
pattern; the source's quote characters are omitted). -/
def unclosedMsg (pat : List Char) : List Char :=
  "Unclosed placeholder in pattern: ".toList ++ pat

/-- Message of the empty-placeholder error. -/
def emptyTokMsg (pat : List Char) : List Char :=
  "Empty placeholder in pattern: ".toList ++ pat

/-- Message of the unknown-placeholder error, embedding the braced offending
token and the whole pattern. -/
def unknownMsg (tok pat : List Char) : List Char :=
  "Unknown placeholder ".toList ++ lbrace :: tok ++ rbrace :: " in pattern: ".toList ++ pat

/-- Scan loop of `format_pattern` (src/src/lib/mbtiles.cpp, lines 287-334):
literal characters are copied; a brace opens a placeholder whose token runs
to the next closing brace (unclosed, empty and unknown tokens throw); the
replacement text is spliced in and scanning resumes after the brace.  `fuel`
makes the recursion structural; `format_pattern` supplies `pattern.length`,
which the fuel-sufficiency lemmas show is never exhausted. -/
def format_pattern_loop (ctx : FmtCtx) (pat : List Char) :
    Nat → List Char → Except (List Char) (List Char)
  | _, [] => Except.ok []
  | 0, _ :: _ => Except.error []
  | Nat.succ fuel, c :: cs =>
    if c == lbrace then
      match splitAtClose cs with
      | none => Except.error (unclosedMsg pat)
      | some (tok, rest) =>
        if tok.isEmpty then Except.error (emptyTokMsg pat)
        else
          match classifyToken tok with
          | none => Except.error (unknownMsg tok pat)
          | some act =>
            match format_pattern_loop ctx pat fuel rest with
            | Except.ok tail => Except.ok (renderAct ctx act ++ tail)
            | Except.error e => Except.error e
    else
      match format_pattern_loop ctx pat fuel cs with
      | Except.ok tail => Except.ok (c :: tail)
      | Except.error e => Except.error e

/-- Embedding of `format_pattern` (src/src/lib/mbtiles.cpp, lines 280-337)
over a resolved context. -/
def format_pattern (ctx : FmtCtx) (pattern : List Char) :
    Except (List Char) (List Char) :=
  format_pattern_loop ctx pattern pattern.length pattern

/-- A template contains an unclosed placeholder: some opening brace is never
followed by a closing one. -/
def UnclosedIn (l : List Char) : Prop :=
  ∃ pre suf, l = pre ++ lbrace :: suf ∧ rbrace ∉ suf

/-- A template contains an unknown placeholder: some brace-delimited,
brace-free token that `classifyToken` rejects (the empty token included). -/
def UnknownIn (l : List Char) : Prop :=
  ∃ pre tok suf, l = pre ++ lbrace :: (tok ++ rbrace :: suf) ∧
    rbrace ∉ tok ∧ lbrace ∉ tok ∧ classifyToken tok = none

/-- A template is malformed in the sense of the invalid-pattern claim. -/
def BadPlaceholder (l : List Char) : Prop :=
  UnclosedIn l ∨ UnknownIn l

/-- Character of the repeated form of a selector. -/
def selChar : Sel → Char
  | Sel.Z => 'Z'
  | Sel.X => 'X'
  | Sel.Y => 'Y'
  | Sel.A => 'A'
  | Sel.O => 'O'

/-- The template consisting of exactly one repeated zero-padded placeholder
of width `w`. -/
def padPattern (s : Sel) (w : Nat) : List Char :=
  lbrace :: (List.replicate w (selChar s) ++ [rbrace])

/-- C1 counterexample.  At zoom 32 the in-range XYZ row 0 maps to TMS row
`2^32 - 1`, which exceeds `intMax`, so the inner conversion throws and the
round trip does not return the row: the claim fails for zooms above 31. -/
theorem rowRoundTrip_cex :
    ((0 : Int) ≤ 0 ∧ (0 : Int) < 2 ^ (32 : Nat)) ∧
      isOkB (rowRoundTrip 0 32) = false := by
  decide

/-- C1 (amended).  For every zoom `z ≤ 31` and every row `r` with
`0 ≤ r < 2^z`, the TMS/XYZ row transform round-trips:
`tms_to_xyz_y (xyz_to_tms_y r z) z = ok r`. -/
theorem rowRoundTrip_id (z : Nat) (r : Int) (hz : z ≤ 31)
    (h0 : 0 ≤ r) (h1 : r < 2 ^ z) :
    rowRoundTrip r z = Except.ok r := by
  have hp : (2 : Int) ^ z ≤ 2 ^ 31 := by
    exact pow_le_pow_right₀ (by norm_num) hz
  have hp31 : (2 : Int) ^ 31 = 2147483648 := by norm_num
  rw [hp31] at hp
  unfold rowRoundTrip xyz_to_tms_y tms_to_xyz_y
  rw [if_neg (by unfold intMax; omega)]
  simp only [Except.bind]
  rw [if_neg (by unfold intMax; omega)]
  congr 1
  omega

/-- C1 witness: the amended round trip evaluated at zoom 3, row 5. -/
theorem rowRoundTrip_id_witness :
    ((3 : Nat) ≤ 31 ∧ (0 : Int) ≤ 5 ∧ (5 : Int) < 2 ^ (3 : Nat)) ∧
      rowRoundTrip 5 3 = Except.ok 5 :=
  ⟨by decide, rowRoundTrip_id 3 5 (by decide) (by decide) (by decide)⟩

/-- C6 counterexample.  At zoom 0 and TMS row 1 the computed value is `-1`,
which fits comfortably in a 32-bit signed `int` and the zoom is below 63, yet
the function throws: the failure condition of the claim is not the one the
code implements. -/
theorem coordCheck_cex :
    ((0 : Nat) < 63 ∧
      -(2 : Int) ^ 31 ≤ (2 : Int) ^ (0 : Nat) - 1 - 1 ∧
      (2 : Int) ^ (0 : Nat) - 1 - 1 ≤ intMax) ∧
      isErrB (tms_to_xyz_y 1 0) = true := by
  decide

/-- C6 (amended).  For `0 ≤ zoom ≤ 62` (the domain on which the C++ shift is
defined) both transforms compute `(2^zoom - 1) - row` and fail exactly when
that value is negative or exceeds `intMax`; on success they return the value.
The code performs no explicit `zoom ≥ 63` test. -/
theorem coordCheck_iff (row : Int) (z : Nat) (hz : z ≤ 62) :
    (isErrB (tms_to_xyz_y row z) = true ↔
      ((2 : Int) ^ z - 1 - row < 0 ∨ intMax < (2 : Int) ^ z - 1 - row)) ∧
    (isErrB (tms_to_xyz_y row z) = false →
      tms_to_xyz_y row z = Except.ok ((2 : Int) ^ z - 1 - row)) ∧
    (isErrB (xyz_to_tms_y row z) = true ↔
      ((2 : Int) ^ z - 1 - row < 0 ∨ intMax < (2 : Int) ^ z - 1 - row)) ∧
    (isErrB (xyz_to_tms_y row z) = false →
      xyz_to_tms_y row z = Except.ok ((2 : Int) ^ z - 1 - row)) := by
  simp only [tms_to_xyz_y, xyz_to_tms_y]
  constructor
  · split <;> simp_all [isErrB]
  constructor
  · split <;> simp_all [isErrB]
  constructor
  · split <;> simp_all [isErrB]
  · split <;> simp_all [isErrB]

/-- C6 witness: at zoom 0, row 0 the transform succeeds and returns 0. -/
theorem coordCheck_iff_witness :
    ((0 : Nat) ≤ 62) ∧ tms_to_xyz_y 0 0 = Except.ok ((2 : Int) ^ (0 : Nat) - 1 - 0) :=
  ⟨by decide, (coordCheck_iff 0 0 (by decide)).2.1 (by decide)⟩

/-- Appending entries never removes a metadata key. -/
theorem keyExists_append (table : List (String × String)) (x : String × String)
    (k : String) (h : keyExists table k = true) :
    keyExists (table ++ [x]) k = true := by
  simp only [keyExists, List.any_append, Bool.or_eq_true]
  exact Or.inl h

/-- Non-overwrite metadata batches abort as soon as some entry's key already
exists in the working table. -/
theorem setMetadataLoop_err (entries : List (String × String)) :
    ∀ table : List (String × String),
      (∃ e ∈ entries, keyExists table e.1 = true) →
      isErrB (setMetadataLoop false table entries) = true := by
  induction entries with
  | nil => intro table h; rcases h with ⟨e, he, _⟩; cases he
  | cons p rest ih =>
    intro table h
    obtain ⟨k, v⟩ := p
    rcases h with ⟨e, he, hk⟩
    simp only [setMetadataLoop, if_neg (by simp : ¬(false = true))]
    by_cases hex : keyExists table k = true
    · rw [if_pos hex]; rfl
    · rw [if_neg hex]
      rcases List.mem_cons.mp he with rfl | hrest
      · exact absurd hk hex
      · exact ih (table ++ [(k, v)]) ⟨e, hrest, keyExists_append table (k, v) e.1 hk⟩

/-- C4.  `setMetadata` with `overwrite_existing = false` fails whenever some
key of the batch already exists; the transaction is rolled back, so (by the
reading of `Except.error` documented on `setMetadata`) the stored table is the
unchanged input.  In particular writing `a ↦ 1` into an empty table succeeds,
and repeating the same non-overwrite write fails while the stored value stays
`1`. -/
theorem setMetadata_keyExists_fails (table entries : List (String × String))
    (h : ∃ e ∈ entries, keyExists table e.1 = true) :
    isErrB (setMetadata table entries false) = true ∧
    setMetadata [] [("a", "1")] false = Except.ok [("a", "1")] ∧
    isErrB (setMetadata [("a", "1")] [("a", "1")] false) = true := by
  refine ⟨?_, by rfl, by decide⟩
  have hne : entries ≠ [] := by
    rcases h with ⟨e, he, _⟩
    intro hnil; rw [hnil] at he; cases he
  unfold setMetadata
  rw [if_neg (by simpa [List.isEmpty_iff] using hne)]
  exact setMetadataLoop_err entries table h

/-- C4 witness: a batch containing key `a` against a table that already stores
`a ↦ 1` fails. -/
theorem setMetadata_keyExists_fails_witness :
    (∃ e ∈ ([("a", "2")] : List (String × String)),
      keyExists [("a", "1")] e.1 = true) ∧
    isErrB (setMetadata [("a", "1")] [("a", "2")] false) = true :=
  ⟨⟨("a", "2"), by decide, by decide⟩,
    (setMetadata_keyExists_fails [("a", "1")] [("a", "2")]
      ⟨("a", "2"), by decide, by decide⟩).1⟩

/-- A fold of `decreaseZoomStep` never puts an incomplete parent into the
output component of the state. -/
theorem decreaseZoomStep_fold_notMem (avail : List (Nat × Nat))
    (load : Nat × Nat → Bool) (X Y : Nat)
    (hbad : ∃ c ∈ childrenOf X Y, memPair avail c = false ∨ load c = false) :
    ∀ (l : List (Nat × Nat)) (state : List (Nat × Nat) × List (Nat × Nat)),
      (X, Y) ∉ state.2 → (X, Y) ∉ (l.foldl (decreaseZoomStep avail load) state).2 := by
  intro l
  induction l with
  | nil => intro state h; exact h
  | cons kv rest ih =>
    intro state h
    refine ih _ ?_
    unfold decreaseZoomStep
    set P : Nat × Nat := (kv.1 / 2, kv.2 / 2) with hP
    by_cases hmem : memPair state.1 P
    · simpa [hmem] using h
    · simp only [hmem, if_false, Bool.false_eq_true]
      by_cases hall : (childrenOf P.1 P.2).all (fun c => memPair avail c && load c)
      · simp only [hall, if_true]
        intro hcontra
        rcases List.mem_cons.mp hcontra with hPXY | htail
        · rcases hbad with ⟨c, hc, hbadc⟩
          have hc2 : c ∈ childrenOf P.1 P.2 := by
            rw [← hPXY]; simpa using hc
          have hc' := List.all_eq_true.mp hall c hc2
          rcases hbadc with hb | hb <;> simp [hb] at hc'
        · exact h htail
      · simpa [hall] using h

/-- C3.  Downsampling is strictly non-generative for gaps: if any one of the
four children of parent `(X, Y)` is missing from the available child files or
fails to load, then no parent tile `(X, Y)` is written by the run (the block
is skipped with `continue`; the loop body raises no error on that path, which
the embedding reflects by being a total function). -/
theorem decrease_zoom_gap (avail : List (Nat × Nat)) (load : Nat × Nat → Bool)
    (X Y : Nat)
    (hbad : ∃ c ∈ childrenOf X Y, memPair avail c = false ∨ load c = false) :
    (X, Y) ∉ decrease_zoom_run avail load :=
  decreaseZoomStep_fold_notMem avail load X Y hbad avail ([], []) (by simp)

/-- C3 witness: with children `(0,0)`, `(1,0)`, `(0,1)` present and loadable
but `(1,1)` missing, the run writes no parent `(0, 0)`. -/
theorem decrease_zoom_gap_witness :
    (∃ c ∈ childrenOf 0 0,
      memPair [(0, 0), (1, 0), (0, 1)] c = false ∨ (fun _ => true) c = false) ∧
    (0, 0) ∉ decrease_zoom_run [(0, 0), (1, 0), (0, 1)] (fun _ => true) :=
  ⟨⟨(1, 1), by decide, by decide⟩,
    decrease_zoom_gap [(0, 0), (1, 0), (0, 1)] (fun _ => true) 0 0
      ⟨(1, 1), by decide, by decide⟩⟩

/-- C9.  Opening a non-empty path that names no existing file succeeds and
creates a fresh empty database there; the empty path always throws; and an
open failure happens only for the empty path or an SQLite-reported error. -/
theorem MBTiles_open_spec :
    (∀ (fs : List String) (ioErr : String → Bool) (path : String),
      path ≠ "" → ioErr path = false → path ∉ fs →
      MBTiles_open fs ioErr path = Except.ok (fs ++ [path])) ∧
    (∀ (fs : List String) (ioErr : String → Bool),
      isErrB (MBTiles_open fs ioErr "") = true) ∧
    (∀ (fs : List String) (ioErr : String → Bool) (path : String),
      isErrB (MBTiles_open fs ioErr path) = true →
      path = "" ∨ ioErr path = true) := by
  refine ⟨?_, ?_, ?_⟩
  · intro fs ioErr path hne hio hmem
    simp [MBTiles_open, sqlite3_open_sim, hne, hio, hmem]
  · intro fs ioErr
    simp [MBTiles_open, isErrB]
  · intro fs ioErr path h
    by_cases hne : path = ""
    · exact Or.inl hne
    · right
      by_cases hio : ioErr path = true
      · exact hio
      · exfalso
        simp only [Bool.not_eq_true] at hio
        by_cases hmem : path ∈ fs <;>
          simp [MBTiles_open, sqlite3_open_sim, hne, hio, hmem, isErrB] at h

/-- C9 witness: opening `a.mbtiles` over an empty file system with no I/O
failure creates the database. -/
theorem MBTiles_open_spec_witness :
    ("a.mbtiles" ≠ "" ∧ (fun _ : String => false) "a.mbtiles" = false ∧
      "a.mbtiles" ∉ ([] : List String)) ∧
    MBTiles_open [] (fun _ => false) "a.mbtiles" = Except.ok ["a.mbtiles"] :=
  ⟨⟨by decide, rfl, by decide⟩,
    MBTiles_open_spec.1 [] (fun _ => false) "a.mbtiles" (by decide) rfl (by decide)⟩

/-- C5 counterexample.  The metadata `format` entry `"."` is present and
non-empty, so the claim requires the tile extension to equal its normalized
token (the empty string); the code instead falls back to sniffing and
returns `png` for a PNG blob. -/
theorem tileExtension_cex :
    ("." ≠ "") ∧
    normalize_extension_token "." = "" ∧
    tileExtension (some ".")
        [0x89, 0x50, 0x4E, 0x47, 0x0D, 0x0A, 0x1A, 0x0A] = "png" := by
  refine ⟨by decide, by decide, ?_⟩
  rfl

/-- C5 (amended).  The tile extension is the normalized archive `format`
token whenever that token is non-empty; when the entry is absent or its
normalized token is empty, the extension is sniffed from the blob's magic
bytes and stripped of its dot; sniffing yields one of `.png`, `.jpg`,
`.webp` or the binary placeholder `.bin`. -/
theorem tileExtension_spec (fmt : String) (blob : List UInt8) :
    (normalize_extension_token fmt ≠ "" →
      tileExtension (some fmt) blob = normalize_extension_token fmt) ∧
    (normalize_extension_token fmt = "" →
      tileExtension (some fmt) blob = extension_without_dot (detect_extension blob)) ∧
    tileExtension none blob = extension_without_dot (detect_extension blob) ∧
    (detect_extension blob = ".png" ∨ detect_extension blob = ".jpg" ∨
      detect_extension blob = ".webp" ∨ detect_extension blob = ".bin") := by
  refine ⟨?_, ?_, ?_, ?_⟩
  · intro h
    simp [tileExtension, read_metadata_format_extension, h]
  · intro h
    simp [tileExtension, read_metadata_format_extension, h]
  · simp [tileExtension, read_metadata_format_extension]
  · unfold detect_extension
    split_ifs <;> simp

/-- C5 witness: the format entry `JPEG` normalizes to `jpg` and overrides
sniffing even for an empty blob. -/
theorem tileExtension_spec_witness :
    normalize_extension_token "JPEG" ≠ "" ∧
    tileExtension (some "JPEG") [] = normalize_extension_token "JPEG" :=
  ⟨by decide, (tileExtension_spec "JPEG" []).1 (by decide)⟩

/-- C2 (code bug).  Because `tile2latlon(int, int, int)` writes the row into
the record's x field and leaves the y field at 0, every tile has
`latMin = latMax` and `lonMin = lonMax`: the claimed strict bounds
`lat_min < lat_max` and `lon_min < lon_max` fail on every valid tile,
contradicting the accessors' own edge comments. -/
theorem tile_bounds_degenerate (t : TileInfo) :
    TileInfo.latMin t = TileInfo.latMax t ∧
    TileInfo.lonMin t = TileInfo.lonMax t :=
  ⟨rfl, rfl⟩

/-- Soundness of the closing-brace search: a successful split decomposes the
input around its first closing brace. -/
theorem splitAtClose_sound :
    ∀ (l tok rest : List Char), splitAtClose l = some (tok, rest) →
      l = tok ++ rbrace :: rest ∧ rbrace ∉ tok := by
  intro l
  induction l with
  | nil => intro tok rest h; simp [splitAtClose] at h
  | cons c cs ih =>
    intro tok rest h
    simp only [splitAtClose] at h
    split at h
    · next hc =>
      obtain ⟨rfl, rfl⟩ : [] = tok ∧ cs = rest := by
        simpa [Prod.ext_iff] using h
      have : c = rbrace := by simpa [beq_iff_eq] using hc
      subst this
      simp
    · next hc =>
      have hcne : c ≠ rbrace := by simpa [beq_iff_eq] using hc
      split at h
      · next tok2 rest2 hsp =>
        obtain ⟨rfl, rfl⟩ : c :: tok2 = tok ∧ rest2 = rest := by
          simpa [Prod.ext_iff] using h
        obtain ⟨hcs, hnm⟩ := ih tok2 rest2 hsp
        constructor
        · rw [hcs]; rfl
        · simp only [List.mem_cons, not_or]
          exact ⟨fun hx => hcne hx.symm, hnm⟩
      · cases h

/-- Completeness of the closing-brace search on a brace-free token. -/
theorem splitAtClose_complete :
    ∀ (tok rest : List Char), rbrace ∉ tok →
      splitAtClose (tok ++ rbrace :: rest) = some (tok, rest) := by
  intro tok
  induction tok with
  | nil => intro rest _; simp [splitAtClose]
  | cons c tok2 ih =>
    intro rest h
    have hcne : ¬(c == rbrace) = true := by
      simp only [beq_iff_eq]
      intro hx; exact h (by rw [hx]; exact List.mem_cons_self _ _)
    simp only [List.cons_append, splitAtClose, if_neg hcne, List.append_eq,
      ih rest (fun hx => h (List.mem_cons_of_mem c hx))]

/-- The closing-brace search fails exactly on brace-free lists. -/
theorem splitAtClose_none :
    ∀ l : List Char, rbrace ∉ l → splitAtClose l = none := by
  intro l
  induction l with
  | nil => intro _; rfl
  | cons c cs ih =>
    intro h
    have hcne : ¬(c == rbrace) = true := by
      simp only [beq_iff_eq]
      intro hx; exact h (by rw [hx]; exact List.mem_cons_self _ _)
    simp only [splitAtClose, if_neg hcne, ih (fun hx => h (List.mem_cons_of_mem c hx))]

/-- A token containing an opening brace is never recognized. -/
theorem classify_mem_lbrace (tok : List Char) (h : lbrace ∈ tok) :
    classifyToken tok = none := by
  have hsingle : ∀ e : Char, lbrace ≠ e → token_is tok e = false := by
    intro e he
    rw [Bool.eq_false_iff]
    intro hx
    have htok : tok = [e] := by simpa [token_is, beq_iff_eq] using hx
    rw [htok] at h
    simp only [List.mem_singleton] at h
    exact he h
  have hrep : ∀ e : Char, lbrace ≠ e → token_is_repeat_of tok e = false := by
    intro e he
    rw [Bool.eq_false_iff]
    intro hx
    simp only [token_is_repeat_of, Bool.and_eq_true, List.all_eq_true] at hx
    have := hx.2 lbrace h
    exact he (by simpa [beq_iff_eq] using this)
  have hext : (tok == ['e', 'x', 't']) = false := by
    rw [Bool.eq_false_iff]
    intro hx
    have htok : tok = ['e', 'x', 't'] := by simpa [beq_iff_eq] using hx
    rw [htok] at h
    revert h; decide
  unfold classifyToken
  rw [hsingle 'z' (by decide), hsingle 'x' (by decide), hsingle 'y' (by decide),
    hsingle 'a' (by decide), hsingle 'o' (by decide),
    hrep 'Z' (by decide), hrep 'X' (by decide), hrep 'Y' (by decide),
    hrep 'A' (by decide), hrep 'O' (by decide), hext]
  simp

/-- List surgery: a brace-free recognized token region lies strictly before a
later opening brace, so that brace survives into the remainder after the
token's closing brace. -/
theorem brace_surgery :
    ∀ (tok0 a b rest0 : List Char),
      a ++ lbrace :: b = tok0 ++ rbrace :: rest0 →
      rbrace ∉ tok0 → lbrace ∉ tok0 →
      ∃ mid, rest0 = mid ++ lbrace :: b := by
  intro tok0
  induction tok0 with
  | nil =>
    intro a b rest0 heq _ _
    cases a with
    | nil =>
      simp only [List.nil_append, List.cons.injEq] at heq
      exact absurd heq.1 (by decide)
    | cons x a2 =>
      simp only [List.cons_append, List.nil_append, List.cons.injEq] at heq
      exact ⟨a2, heq.2.symm⟩
  | cons t tok02 ih =>
    intro a b rest0 heq hr hl
    cases a with
    | nil =>
      simp only [List.nil_append, List.cons_append, List.cons.injEq] at heq
      exact absurd heq.1.symm (fun hx => hl (by rw [hx]; exact List.mem_cons_self _ _))
    | cons x a2 =>
      simp only [List.cons_append, List.cons.injEq] at heq
      exact ih a2 b rest0 heq.2 (fun hx => hr (List.mem_cons_of_mem t hx))
        (fun hx => hl (List.mem_cons_of_mem t hx))

/-- With sufficient fuel, the scan loop fails on every tail that still
contains a bad placeholder. -/
theorem format_pattern_loop_bad :
    ∀ (fuel : Nat) (l : List Char) (ctx : FmtCtx) (pat : List Char),
      l.length ≤ fuel → BadPlaceholder l →
      isErrB (format_pattern_loop ctx pat fuel l) = true := by
  intro fuel
  induction fuel with
  | zero =>
    intro l ctx pat hlen hbad
    have hl : l = [] := by
      cases l with
      | nil => rfl
      | cons a as => simp at hlen
    subst hl
    rcases hbad with ⟨pre, suf, heq, _⟩ | ⟨pre, tok, suf, heq, _⟩ <;>
      exact absurd heq (by cases pre <;> simp)
  | succ fuel ih =>
    intro l ctx pat hlen hbad
    cases l with
    | nil =>
      rcases hbad with ⟨pre, suf, heq, _⟩ | ⟨pre, tok, suf, heq, _⟩ <;>
        exact absurd heq (by cases pre <;> simp)
    | cons c cs =>
      have hlen2 : cs.length ≤ fuel := by
        simp only [List.length_cons] at hlen; omega
      by_cases hc : (c == lbrace) = true
      · have hceq : c = lbrace := by simpa [beq_iff_eq] using hc
        cases hsp : splitAtClose cs with
        | none => simp [format_pattern_loop, hceq, hsp, isErrB]
        | some pr =>
          obtain ⟨tok0, rest0⟩ := pr
          obtain ⟨hcs, hnr0⟩ := splitAtClose_sound cs tok0 rest0 hsp
          by_cases hemp : tok0.isEmpty = true
          · simp [format_pattern_loop, hceq, hsp, hemp, isErrB]
          · cases hcl : classifyToken tok0 with
            | none => simp [format_pattern_loop, hceq, hsp, hemp, hcl, isErrB]
            | some act =>
              have hlb0 : lbrace ∉ tok0 := by
                intro hmem
                rw [classify_mem_lbrace tok0 hmem] at hcl
                cases hcl
              have hrest_len : rest0.length ≤ fuel := by
                have := hlen2
                rw [hcs] at this
                simp only [List.length_append, List.length_cons] at this
                omega
              have hbadrest : BadPlaceholder rest0 := by
                rcases hbad with ⟨pre, suf, heq, hnsuf⟩ |
                  ⟨pre, tok, suf, heq, hnrt, hnlt, hcl2⟩
                · cases pre with
                  | nil =>
                    simp only [List.nil_append, List.cons.injEq] at heq
                    exfalso
                    apply hnsuf
                    rw [← heq.2, hcs]
                    exact List.mem_append_right _ (List.mem_cons_self _ _)
                  | cons p pre2 =>
                    simp only [List.cons_append, List.cons.injEq] at heq
                    obtain ⟨mid, hmid⟩ :=
                      brace_surgery tok0 pre2 suf rest0 (heq.2.symm.trans hcs) hnr0 hlb0
                    exact Or.inl ⟨mid, suf, hmid, hnsuf⟩
                · cases pre with
                  | nil =>
                    simp only [List.nil_append, List.cons.injEq] at heq
                    exfalso
                    have hspc : splitAtClose cs = some (tok, suf) := by
                      rw [heq.2]; exact splitAtClose_complete tok suf hnrt
                    rw [hsp] at hspc
                    obtain ⟨rfl, rfl⟩ : tok0 = tok ∧ rest0 = suf := by
                      simpa [Prod.ext_iff] using hspc
                    rw [hcl2] at hcl
                    cases hcl
                  | cons p pre2 =>
                    simp only [List.cons_append, List.cons.injEq] at heq
                    obtain ⟨mid, hmid⟩ :=
                      brace_surgery tok0 pre2 (tok ++ rbrace :: suf) rest0
                        (heq.2.symm.trans hcs) hnr0 hlb0
                    exact Or.inr ⟨mid, tok, suf, hmid, hnrt, hnlt, hcl2⟩
              have herr := ih rest0 ctx pat hrest_len hbadrest
              cases hrec : format_pattern_loop ctx pat fuel rest0 with
              | ok tail => rw [hrec] at herr; simp [isErrB] at herr
              | error e => simp [format_pattern_loop, hceq, hsp, hemp, hcl, hrec, isErrB]
      · have hbadcs : BadPlaceholder cs := by
          rcases hbad with ⟨pre, suf, heq, hnsuf⟩ |
            ⟨pre, tok, suf, heq, hnrt, hnlt, hcl2⟩
          · cases pre with
            | nil =>
              simp only [List.nil_append, List.cons.injEq] at heq
              exact absurd (by simp [heq.1] : (c == lbrace) = true) hc
            | cons p pre2 =>
              simp only [List.cons_append, List.cons.injEq] at heq
              exact Or.inl ⟨pre2, suf, heq.2, hnsuf⟩
          · cases pre with
            | nil =>
              simp only [List.nil_append, List.cons.injEq] at heq
              exact absurd (by simp [heq.1] : (c == lbrace) = true) hc
            | cons p pre2 =>
              simp only [List.cons_append, List.cons.injEq] at heq
              exact Or.inr ⟨pre2, tok, suf, heq.2, hnrt, hnlt, hcl2⟩
        have hcne : c ≠ lbrace := by simpa [beq_iff_eq] using hc
        have herr := ih cs ctx pat hlen2 hbadcs
        cases hrec : format_pattern_loop ctx pat fuel cs with
        | ok tail => rw [hrec] at herr; simp [isErrB] at herr
        | error e => simp [format_pattern_loop, hcne, hrec, isErrB]

/-- Every error message of the scan loop ends with the full pattern text. -/
theorem format_pattern_loop_msg :
    ∀ (fuel : Nat) (l : List Char) (ctx : FmtCtx) (pat msg : List Char),
      l.length ≤ fuel →
      format_pattern_loop ctx pat fuel l = Except.error msg →
      ∃ s, msg = s ++ pat := by
  intro fuel
  induction fuel with
  | zero =>
    intro l ctx pat msg hlen h
    have hl : l = [] := by
      cases l with
      | nil => rfl
      | cons a as => simp at hlen
    subst hl
    simp [format_pattern_loop] at h
  | succ fuel ih =>
    intro l ctx pat msg hlen h
    cases l with
    | nil => simp [format_pattern_loop] at h
    | cons c cs =>
      have hlen2 : cs.length ≤ fuel := by
        simp only [List.length_cons] at hlen; omega
      by_cases hc : (c == lbrace) = true
      · simp only [format_pattern_loop, if_pos hc] at h
        cases hsp : splitAtClose cs with
        | none =>
          rw [hsp] at h
          simp only [Except.error.injEq] at h
          exact ⟨"Unclosed placeholder in pattern: ".toList, by rw [← h]; rfl⟩
        | some pr =>
          obtain ⟨tok0, rest0⟩ := pr
          obtain ⟨hcs, _⟩ := splitAtClose_sound cs tok0 rest0 hsp
          simp only [hsp] at h
          by_cases hemp : tok0.isEmpty = true
          · rw [if_pos hemp] at h
            simp only [Except.error.injEq] at h
            exact ⟨"Empty placeholder in pattern: ".toList, by rw [← h]; rfl⟩
          · rw [if_neg hemp] at h
            cases hcl : classifyToken tok0 with
            | none =>
              rw [hcl] at h
              simp only [Except.error.injEq] at h
              refine ⟨"Unknown placeholder ".toList ++
                lbrace :: tok0 ++ rbrace :: " in pattern: ".toList, ?_⟩
              rw [← h]
              simp [unknownMsg, List.append_assoc]
            | some act =>
              rw [hcl] at h
              have hrest_len : rest0.length ≤ fuel := by
                have := hlen2
                rw [hcs] at this
                simp only [List.length_append, List.length_cons] at this
                omega
              cases hrec : format_pattern_loop ctx pat fuel rest0 with
              | ok tail => rw [hrec] at h; simp at h
              | error e =>
                rw [hrec] at h
                simp only [Except.error.injEq] at h
                exact ih rest0 ctx pat msg hrest_len (h ▸ hrec)
      · simp only [format_pattern_loop, if_neg hc] at h
        cases hrec : format_pattern_loop ctx pat fuel cs with
        | ok tail => rw [hrec] at h; simp at h
        | error e =>
          rw [hrec] at h
          simp only [Except.error.injEq] at h
          exact ih cs ctx pat msg hlen2 (h ▸ hrec)

/-- C7.  A template containing an unclosed or unknown placeholder always
makes `format_pattern` fail (no output path is produced), and every error
message embeds the whole pattern, hence in particular the offending token. -/
theorem format_pattern_invalid :
    (∀ (ctx : FmtCtx) (pat : List Char),
      BadPlaceholder pat → isErrB (format_pattern ctx pat) = true) ∧
    (∀ (ctx : FmtCtx) (pat msg tok : List Char),
      format_pattern ctx pat = Except.error msg →
      tok <:+: pat → tok <:+: msg) := by
  constructor
  · intro ctx pat hbad
    exact format_pattern_loop_bad pat.length pat ctx pat le_rfl hbad
  · intro ctx pat msg tok herr hinf
    obtain ⟨s, rfl⟩ := format_pattern_loop_msg pat.length pat ctx pat msg le_rfl herr
    exact hinf.trans (List.suffix_append s pat).isInfix

/-- C7 witness: the unknown placeholder `q` makes the scan fail. -/
theorem format_pattern_invalid_witness :
    BadPlaceholder ("{q}".toList) ∧
    isErrB (format_pattern ⟨0, 0, 0, [], [], 0, 0, []⟩ ("{q}".toList)) = true :=
  ⟨Or.inr ⟨[], ['q'], [], by decide, by decide, by decide, by decide⟩,
    format_pattern_invalid.1 ⟨0, 0, 0, [], [], 0, 0, []⟩ ("{q}".toList)
      (Or.inr ⟨[], ['q'], [], by decide, by decide, by decide, by decide⟩)⟩

/-- C8.  The default template expands to the slash-joined decimal renderings
of zoom, column and row with the dotted extension appended, for every tile
and extension; in particular `(5, 3, 10, png)` yields `5/3/10.png`. -/
theorem format_pattern_zxy (z x y latI lonI : Int) (latS lonS extn : List Char) :
    format_pattern ⟨z, x, y, latS, lonS, latI, lonI, extn⟩ ("{z}/{x}/{y}.{ext}".toList) =
      Except.ok (intDecimal z ++ '/' :: intDecimal x ++ '/' :: intDecimal y ++
        '.' :: extn) ∧
    format_pattern ⟨5, 3, 10, [], [], 0, 0, "png".toList⟩ ("{z}/{x}/{y}.{ext}".toList) =
      Except.ok ("5/3/10.png".toList) := by
  constructor
  · have h : format_pattern ⟨z, x, y, latS, lonS, latI, lonI, extn⟩
        ("{z}/{x}/{y}.{ext}".toList) =
        Except.ok (intDecimal z ++ '/' :: (intDecimal x ++ '/' ::
          (intDecimal y ++ '.' :: (extn ++ [])))) := rfl
    rw [h]
    simp
  · rfl

/-- The repeated form of a selector is recognized as that selector's padded
placeholder of the token's width. -/
theorem classifyToken_replicate (s : Sel) (w : Nat) (hw : 0 < w) :
    classifyToken (List.replicate w (selChar s)) = some (TokAct.padded s w) := by
  have hne : ∀ e : Char, selChar s ≠ e →
      token_is (List.replicate w (selChar s)) e = false := by
    intro e he
    rw [Bool.eq_false_iff]
    intro hx
    have heq : List.replicate w (selChar s) = [e] := by
      simpa [token_is, beq_iff_eq] using hx
    have hme : e ∈ List.replicate w (selChar s) := by
      rw [heq]; exact List.mem_singleton_self e
    exact he ((List.mem_replicate.mp hme).2.symm)
  have hrb : ∀ e : Char,
      token_is_repeat_of (List.replicate w (selChar s)) e = (selChar s == e) := by
    intro e
    by_cases h : selChar s = e
    · subst h
      simp only [beq_self_eq_true, token_is_repeat_of, Bool.and_eq_true,
        List.all_eq_true]
      constructor
      · simp [List.isEmpty_iff, Nat.pos_iff_ne_zero.mp hw]
      · intro x hx
        simp [beq_iff_eq, (List.mem_replicate.mp hx).2]
    · rw [show (selChar s == e) = false by simpa [beq_iff_eq] using h]
      rw [Bool.eq_false_iff]
      intro hx
      simp only [token_is_repeat_of, Bool.and_eq_true, List.all_eq_true] at hx
      have := hx.2 (selChar s)
        (List.mem_replicate.mpr ⟨Nat.pos_iff_ne_zero.mp hw, rfl⟩)
      exact h (by simpa [beq_iff_eq] using this)
  have hext : List.replicate w (selChar s) ≠ ['e', 'x', 't'] := by
    intro heq
    have hme : 'e' ∈ List.replicate w (selChar s) := by
      rw [heq]; exact List.mem_cons_self _ _
    have hce := (List.mem_replicate.mp hme).2
    cases s <;> exact absurd hce (by decide)
  cases s <;>
    simp only [selChar] at hne hrb hext ⊢ <;>
    simp [classifyToken, hne 'z' (by decide), hne 'x' (by decide),
      hne 'y' (by decide), hne 'a' (by decide), hne 'o' (by decide),
      hrb, hext, List.length_replicate]

/-- C10 helper: the source's pad-then-truncate rendering agrees with the
claim's case description. -/
theorem leading_digits_eq_spec (v : Int) (w : Nat) :
    leading_digits v w = padSpecRender v w := by
  simp only [leading_digits, padSpecRender]
  by_cases h : (Nat.toDigits 10 v.natAbs).length < w
  · rw [if_pos h, if_neg (by omega)]
    have hl : (List.replicate (w - (Nat.toDigits 10 v.natAbs).length) '0' ++
        Nat.toDigits 10 v.natAbs).length ≤ w := by
      simp only [List.length_append, List.length_replicate]
      omega
    rw [List.take_of_length_le hl]
  · rw [if_neg h]
    by_cases h2 : w < (Nat.toDigits 10 v.natAbs).length
    · rw [if_pos h2]
    · have hl : w = (Nat.toDigits 10 v.natAbs).length := by omega
      rw [if_neg h2, hl, List.take_length, Nat.sub_self]
      simp

/-- C10.  Every repeated zero-padded placeholder of positive width `w`
renders the selected value's absolute value truncated to its leading `w`
digits when longer, and left-padded with zeros to exactly `w` characters
otherwise. -/
theorem format_pattern_padded (ctx : FmtCtx) (s : Sel) (w : Nat) (hw : 0 < w) :
    format_pattern ctx (padPattern s w) =
      Except.ok (padSpecRender (selPadVal ctx s) w) := by
  have hnr : rbrace ∉ List.replicate w (selChar s) := by
    intro hmem
    have hrc := (List.mem_replicate.mp hmem).2
    cases s <;> exact absurd hrc (by decide)
  have hsp : splitAtClose (List.replicate w (selChar s) ++ [rbrace]) =
      some (List.replicate w (selChar s), []) :=
    splitAtClose_complete (List.replicate w (selChar s)) [] hnr
  have hemp : (List.replicate w (selChar s)).isEmpty = false := by
    simp [List.isEmpty_iff, Nat.pos_iff_ne_zero.mp hw]
  have hlen : (padPattern s w).length = Nat.succ (w + 1) := by
    simp [padPattern]
  unfold format_pattern
  rw [hlen]
  simp [padPattern, format_pattern_loop, hsp, hemp, classifyToken_replicate s w hw,
    renderAct, leading_digits_eq_spec]

/-- C10 witness: the width-2 column placeholder truncates `123456` to its
leading two digits. -/
theorem format_pattern_padded_witness :
    (0 < 2) ∧
    format_pattern ⟨5, 123456, 10, [], [], 0, 0, []⟩ (padPattern Sel.X 2) =
      Except.ok (padSpecRender 123456 2) :=
  ⟨by decide, format_pattern_padded ⟨5, 123456, 10, [], [], 0, 0, []⟩ Sel.X 2 (by decide)⟩

end LibMbtiles
